import Mathlib

/-!
Verification of the go-pgxs repository: a Go library for writing PostgreSQL
C-language extensions, together with its worked example extension
(`example/example.go`) and packaging documentation (`README.md`).

The example module (`Hello`, `JoinStrings`, `convFI`) is embedded directly
from `example/example.go`.  The adapter library (`pgxs.FuncInfo`, `Scan`,
`CalledAsTrigger`, `TriggerData`, `ToDatum`, `LogError`, the notice logger)
ships in a separate file that is not part of this snapshot, so those
operations are modelled from the specification's description of the
call-convention adapter (argument scan, trigger access, return-value
construction, logging) and of the type mapping table
(host text[] to a sequence of native strings, host text/void to a native
string / absence of a value).
-/

namespace Pgxs

/-- Modelled from the spec: the native typed values of the supported SQL type
mappings — a native string (host `text`), a sequence of native strings
(host `text[]`), and the absence of a value (host `void` / null). -/
inductive PgValue where
  | vnull
  | vtext (s : String)
  | vtextArray (xs : List String)
deriving DecidableEq, Repr

/-- Modelled from the spec: the host SQL types appearing in the type mapping
table. -/
inductive PgType where
  | void
  | text
  | textArray
deriving DecidableEq, Repr

/-- Modelled from the spec: the host's encoded value ("Datum") — a word-sized,
type-erased representation that is either a packed scalar word or a pointer
to a variable-length structure; the pointed-to structure is modelled by its
word contents (header/dimension info followed by element data). -/
inductive Datum where
  | word (n : Nat)
  | bytes (ws : List Nat)
deriving DecidableEq, Repr

/-- Modelled from the spec: the wire form of one host `text` value — a length
header followed by the element character data. -/
def encodeString (s : String) : List Nat :=
  s.data.length :: s.data.map Char.toNat

/-- Modelled from the spec: the element data of a host `text[]` value — the
encodings of the elements walked back to back. -/
def encodeStrings : List String → List Nat
  | [] => []
  | s :: ss => encodeString s ++ encodeStrings ss

/-- Modelled from the spec: the wire form of a host `text[]` value — a
dimension header followed by the element encodings. -/
def encodeArray (xs : List String) : List Nat :=
  xs.length :: encodeStrings xs

/-- Modelled from the spec: the encode direction of the type mapping table —
the null/absent value is the packed scalar word 0, a native string becomes an
encoded `text` structure, a sequence of native strings becomes an encoded
`text[]` structure. -/
def encode : PgValue → Datum
  | .vnull => .word 0
  | .vtext s => .bytes (encodeString s)
  | .vtextArray xs => .bytes (encodeArray xs)

/-- Modelled from the spec: the host SQL type a native value belongs to under
the type mapping table. -/
def typeOf : PgValue → PgType
  | .vnull => .void
  | .vtext _ => .text
  | .vtextArray _ => .textArray

/-- Modelled from the spec: read exactly `n` characters from the wire,
rejecting any word that is not a valid character code, threading the
unconsumed tail. -/
def decodeChars : Nat → List Nat → Option (List Char × List Nat)
  | 0, ws => some ([], ws)
  | _ + 1, [] => none
  | n + 1, w :: ws =>
    if (Char.ofNat w).toNat = w then
      match decodeChars n ws with
      | some (cs, rem) => some (Char.ofNat w :: cs, rem)
      | none => none
    else none

/-- Modelled from the spec: parse one encoded `text` value — read the length
header, then exactly that many characters — threading the unconsumed tail. -/
def decodeString : List Nat → Option (String × List Nat)
  | [] => none
  | n :: ws =>
    match decodeChars n ws with
    | some (cs, rem) => some (String.mk cs, rem)
    | none => none

/-- Modelled from the spec: parse exactly `n` consecutive encoded `text`
values, threading the unconsumed tail. -/
def decodeStrings : Nat → List Nat → Option (List String × List Nat)
  | 0, ws => some ([], ws)
  | n + 1, ws =>
    match decodeString ws with
    | some (s, rem) =>
      match decodeStrings n rem with
      | some (ss, rem2) => some (s :: ss, rem2)
      | none => none
    | none => none

/-- Modelled from the spec: the decode direction of the type mapping table,
keyed by the expected host SQL type; fails on an unsupported combination or a
malformed variable-length encoding (wrong header, truncated or oversized
element data, invalid character code). -/
def decode : PgType → Datum → Option PgValue
  | .void, .word 0 => some .vnull
  | .void, _ => none
  | .text, .bytes ws =>
    match decodeString ws with
    | some (s, []) => some (.vtext s)
    | _ => none
  | .text, .word _ => none
  | .textArray, .bytes (n :: ws) =>
    match decodeStrings n ws with
    | some (ss, []) => some (.vtextArray ss)
    | _ => none
  | .textArray, _ => none

/-- Modelled from the spec: the error taxonomy of the adapter library —
`InvalidInput` (argument count/type mismatch, malformed encoded value, array
decode failure) and `InvalidState` (trigger context requested outside
trigger-mode invocation). -/
inductive PgxsError where
  | invalidInput
  | invalidState
deriving DecidableEq, Repr

/-- Modelled from the spec: the text carried by an adapter error value (the
spec fixes the taxonomy, not the wording). -/
def PgxsError.message : PgxsError → String
  | .invalidInput => "invalid input"
  | .invalidState => "invalid state"

/-- Modelled from the spec: the severities of the server-visible logging
operation — informational "notice" and error. -/
inductive Severity where
  | notice
  | error
deriving DecidableEq, Repr

/-- Modelled from the spec: one emitted server-visible log message — its
severity and its text. -/
structure LogEntry where
  sev : Severity
  msg : String
deriving DecidableEq, Repr

/-- Modelled from the spec: the operation kinds a trigger can fire for. -/
inductive TriggerOp where
  | insert
  | update
  | delete
  | truncate
deriving DecidableEq, Repr

/-- Modelled from the spec: the read-only trigger context — the relation being
affected, the operation kind, and the old/new row images when applicable. -/
structure TriggerContext where
  relation : String
  operation : TriggerOp
  oldRow : Option (List Datum)
  newRow : Option (List Datum)
deriving DecidableEq, Repr

/-- Modelled from the spec: the host's call-info structure — the encoded
argument values each paired with its null-ness flag (the argument count is
the length of that list), and, for trigger invocations, the trigger
context. -/
structure FuncInfo where
  args : List (Datum × Bool)
  trigger : Option TriggerContext
deriving DecidableEq, Repr

/-- Modelled from the spec: reports whether the call-info indicates the
function was invoked as a trigger handler; a pure query over the call-info
contents. -/
def FuncInfo.CalledAsTrigger (fi : FuncInfo) : Bool :=
  fi.trigger.isSome

/-- Modelled from the spec: trigger data access — when in trigger mode,
returns the trigger context; fails with `InvalidState` when the call was not
made in trigger mode. -/
def FuncInfo.TriggerData (fi : FuncInfo) : Except PgxsError TriggerContext :=
  match fi.trigger with
  | some td => .ok td
  | none => .error .invalidState

/-- Modelled from the spec: decode one positional argument into the expected
native type, honoring its null flag (a null argument cannot populate a
destination under a `STRICT`-style scan). -/
def decodeArg (t : PgType) (d : Datum) (isNull : Bool) : Option PgValue :=
  if isNull then none else decode t d

/-- Modelled from the spec: decode each positional argument against its
destination type, failing with `InvalidInput` at the first value that cannot
be decoded under the type mapping table. -/
def scanArgs : List (PgType × (Datum × Bool)) → Except PgxsError (List PgValue)
  | [] => .ok []
  | (t, d, isNull) :: rest =>
    match decodeArg t d isNull with
    | some v => (scanArgs rest).map (v :: ·)
    | none => .error .invalidInput

/-- Modelled from the spec: the argument scan — given the call-info and an
ordered set of destination types, decode each positional argument per the
type mapping table; fails with `InvalidInput` when the call-info was not
created in normal (non-trigger) mode, when the number of requested
destinations does not match the number of actual arguments, or when any
individual value cannot be decoded; partial extraction never occurs. -/
def FuncInfo.Scan (fi : FuncInfo) (dests : List PgType) :
    Except PgxsError (List PgValue) :=
  if fi.trigger.isSome then .error .invalidInput
  else if dests.length = fi.args.length then
    scanArgs (dests.zip fi.args)
  else .error .invalidInput

/-- Modelled from the spec: return value construction — encode a native typed
value (including the representation of "no value") into the host's expected
wire form; exactly mirrors the decode side of the type mapping table. -/
def ToDatum (v : PgValue) : Datum :=
  encode v

/-- Modelled from the spec: one emission of the error-severity logging
operation. -/
def LogError (msg : String) : LogEntry :=
  ⟨Severity.error, msg⟩

/-- Modelled from the spec: one emission through a notice-severity logger
carrying an optional caller-supplied message pre-text. -/
def noticePrintln (pre msg : String) : LogEntry :=
  ⟨Severity.notice, pre ++ msg⟩

end Pgxs

namespace Example

open Pgxs

/-- Hello from `example/example.go`: emits one "hello" message through a
notice logger and returns the literal datum 0 without touching the call-info
pointer (so a nil pointer, modelled as `none`, is never dereferenced). -/
def Hello (_fcinfo : Option FuncInfo) : Datum × List LogEntry :=
  (Datum.word 0, [noticePrintln "" "hello"])

/-- convFI from `example/example.go`: reinterprets the host call-info pointer
as the adapter library's typed view; in the model the two views are the same
structure. -/
def convFI (fcinfo : FuncInfo) : FuncInfo :=
  fcinfo

/-- Scan of `example/example.go`'s single `[]string` destination: expects
exactly one argument of host type `text[]` and yields its native string
sequence. -/
def scanStrings (fi : FuncInfo) : Except PgxsError (List String) :=
  match fi.Scan [PgType.textArray] with
  | .ok [PgValue.vtextArray xs] => .ok xs
  | .ok _ => .error .invalidInput
  | .error e => .error e

/-- JoinStrings from `example/example.go`: scans the single `text[]` argument
into native strings; on scan failure logs the error text at error severity
and returns the encoded empty string as fallback; on success returns the
encoded concatenation of the strings with no separator. -/
def JoinStrings (fcinfo : FuncInfo) : Datum × List LogEntry :=
  match scanStrings (convFI fcinfo) with
  | .error e => (ToDatum (PgValue.vtext ""), [LogError e.message])
  | .ok strs => (ToDatum (PgValue.vtext (String.join strs)), [])

/-- Symbol names bound by the CREATE OR REPLACE FUNCTION statements of the
SQL installation script `example--0.1.sql`, as shipped in `README.md`. -/
def sqlScriptSymbols : List String :=
  ["HelloWorld", "JoinStrings"]

/-- Symbol names the compiled library exports: the functions annotated with
an export comment in `example/example.go`. -/
def exportedSymbols : List String :=
  ["Hello", "JoinStrings"]

/-- Sample call-info whose single non-null argument is the encoded
text-array with elements a, b, c. -/
def fiABC : FuncInfo :=
  ⟨[(encode (PgValue.vtextArray ["a", "b", "c"]), false)], none⟩

/-- Sample call-info whose single non-null argument is the encoded empty
text-array. -/
def fiEmptyArr : FuncInfo :=
  ⟨[(encode (PgValue.vtextArray []), false)], none⟩

/-- Sample call-info whose single argument is a packed scalar word, which is
undecodable as a text-array. -/
def fiBad : FuncInfo :=
  ⟨[(Datum.word 5, false)], none⟩

/-- Sample call-info with no arguments, constructed in normal mode. -/
def fiNoArgs : FuncInfo :=
  ⟨[], none⟩

/-- Sample trigger context. -/
def tcSample : TriggerContext :=
  ⟨"tbl", TriggerOp.insert, none, some [Datum.word 0]⟩

/-- Sample call-info constructed in trigger mode carrying `tcSample`. -/
def fiTrig : FuncInfo :=
  ⟨[], some tcSample⟩

end Example

namespace Pgxs

/-- Rebuilding a string from its character data is the identity. -/
theorem string_mk_data (s : String) : String.mk s.data = s := by
  cases s
  rfl

/-- Reading back exactly the characters just written returns them, tail
preserved. -/
theorem decodeChars_encode (cs : List Char) (rest : List Nat) :
    decodeChars cs.length (cs.map Char.toNat ++ rest) = some (cs, rest) := by
  induction cs generalizing rest with
  | nil => rfl
  | cons c cs ih =>
    simp [decodeChars, Char.ofNat_toNat, ih]

/-- An accepted character parse read exactly the canonical character data. -/
theorem decodeChars_sound (n : Nat) (ws : List Nat) (cs : List Char)
    (rem : List Nat) (h : decodeChars n ws = some (cs, rem)) :
    cs.length = n ∧ ws = cs.map Char.toNat ++ rem := by
  induction n generalizing ws cs rem with
  | zero =>
    simp only [decodeChars, Option.some.injEq, Prod.mk.injEq] at h
    obtain ⟨rfl, rfl⟩ := h
    exact ⟨rfl, rfl⟩
  | succ n ih =>
    cases ws with
    | nil => simp [decodeChars] at h
    | cons w ws =>
      simp only [decodeChars] at h
      split at h
      next hcond =>
        split at h
        next cs' rem' heq =>
          obtain ⟨rfl, rfl⟩ := Prod.mk.injEq .. ▸ Option.some.inj h
          obtain ⟨hl, hw⟩ := ih ws cs' rem' heq
          refine ⟨by simp [hl], ?_⟩
          simp [List.map_cons, hw, hcond]
        next => exact absurd h (by simp)
      next => exact absurd h (by simp)

/-- Parsing the encoding of one string returns it, tail preserved. -/
theorem decodeString_encode (s : String) (rest : List Nat) :
    decodeString (encodeString s ++ rest) = some (s, rest) := by
  simp only [encodeString, List.cons_append, decodeString, decodeChars_encode,
    string_mk_data]

/-- An accepted string parse consumed exactly the canonical encoding. -/
theorem decodeString_sound (ws : List Nat) (s : String) (rem : List Nat)
    (h : decodeString ws = some (s, rem)) :
    ws = encodeString s ++ rem := by
  cases ws with
  | nil => simp [decodeString] at h
  | cons n ws =>
    simp only [decodeString] at h
    split at h
    · next cs rem' heq =>
      obtain ⟨rfl, rfl⟩ := Prod.mk.injEq .. ▸ Option.some.inj h
      obtain ⟨hl, hw⟩ := decodeChars_sound n ws cs rem' heq
      simp [encodeString, ← hl, hw]
    · exact absurd h (by simp)

/-- Parsing back exactly the strings just written returns them, tail
preserved. -/
theorem decodeStrings_encode (xs : List String) (rest : List Nat) :
    decodeStrings xs.length (encodeStrings xs ++ rest) = some (xs, rest) := by
  induction xs generalizing rest with
  | nil => rfl
  | cons x xs ih =>
    simp [encodeStrings, decodeStrings, List.append_assoc, decodeString_encode, ih]

/-- An accepted parse of `n` strings consumed exactly their canonical
encodings. -/
theorem decodeStrings_sound (n : Nat) (ws : List Nat) (xs : List String)
    (rem : List Nat) (h : decodeStrings n ws = some (xs, rem)) :
    xs.length = n ∧ ws = encodeStrings xs ++ rem := by
  induction n generalizing ws xs rem with
  | zero =>
    simp only [decodeStrings, Option.some.injEq, Prod.mk.injEq] at h
    obtain ⟨rfl, rfl⟩ := h
    exact ⟨rfl, rfl⟩
  | succ n ih =>
    simp only [decodeStrings] at h
    split at h
    · next s rem' heq =>
      split at h
      · next xs' rem2 heq2 =>
        obtain ⟨rfl, rfl⟩ := Prod.mk.injEq .. ▸ Option.some.inj h
        obtain ⟨hl, hw⟩ := ih rem' xs' rem2 heq2
        refine ⟨by simp [hl], ?_⟩
        rw [decodeString_sound ws s rem' heq, hw, encodeStrings, List.append_assoc]
      · exact absurd h (by simp)
    · exact absurd h (by simp)

/-- Decoding the encoding of any supported native value, at its own host SQL
type, returns that value. -/
theorem decode_encode (v : PgValue) : decode (typeOf v) (encode v) = some v := by
  cases v with
  | vnull => rfl
  | vtext s =>
    have hs : decodeString (encodeString s) = some (s, []) := by
      simpa using decodeString_encode s []
    simp [typeOf, encode, decode, hs]
  | vtextArray xs =>
    have hxs : decodeStrings xs.length (encodeStrings xs) = some (xs, []) := by
      simpa using decodeStrings_encode xs []
    simp [typeOf, encode, encodeArray, decode, hxs]

/-- Any encoded value accepted by the decode side of the type mapping table is
exactly the encoding of the value it decodes to, at that value's own host SQL
type. -/
theorem encode_decode (t : PgType) (d : Datum) (v : PgValue)
    (h : decode t d = some v) : encode v = d ∧ typeOf v = t := by
  cases t with
  | void =>
    cases d with
    | word n =>
      cases n with
      | zero =>
        obtain rfl := Option.some.inj h
        exact ⟨rfl, rfl⟩
      | succ n => simp [decode] at h
    | bytes ws => simp [decode] at h
  | text =>
    cases d with
    | word n => simp [decode] at h
    | bytes ws =>
      simp only [decode] at h
      split at h
      · next s heq =>
        obtain rfl := Option.some.inj h
        have hw := decodeString_sound ws s [] heq
        simp only [List.append_nil] at hw
        exact ⟨by simp [encode, hw], rfl⟩
      · exact absurd h (by simp)
  | textArray =>
    cases d with
    | word n => simp [decode] at h
    | bytes ws =>
      cases ws with
      | nil => simp [decode] at h
      | cons n ws =>
        simp only [decode] at h
        split at h
        · next ss heq =>
          obtain rfl := Option.some.inj h
          obtain ⟨hl, hw⟩ := decodeStrings_sound n ws ss [] heq
          simp only [List.append_nil] at hw
          exact ⟨by simp [encode, encodeArray, hl, hw], rfl⟩
        · exact absurd h (by simp)

/-- A scan over zipped destination/argument pairs populates one destination
per pair. -/
theorem scanArgs_length (l : List (PgType × (Datum × Bool)))
    (vals : List PgValue) (h : scanArgs l = .ok vals) :
    vals.length = l.length := by
  induction l generalizing vals with
  | nil =>
    simp only [scanArgs] at h
    obtain rfl := Except.ok.inj h
    rfl
  | cons p l ih =>
    obtain ⟨t, d, isNull⟩ := p
    simp only [scanArgs] at h
    split at h
    · next v hv =>
      cases hsc : scanArgs l with
      | error e => rw [hsc] at h; simp [Except.map] at h
      | ok tl =>
        rw [hsc] at h
        simp only [Except.map] at h
        obtain rfl := Except.ok.inj h
        simp [ih tl hsc]
    · exact absurd h (by simp)

/-- A scan over zipped destination/argument pairs containing any undecodable
pair fails with `InvalidInput`. -/
theorem scanArgs_fails (l : List (PgType × (Datum × Bool)))
    (p : PgType × (Datum × Bool)) (hp : p ∈ l)
    (hd : decodeArg p.1 p.2.1 p.2.2 = none) :
    scanArgs l = .error PgxsError.invalidInput := by
  induction l with
  | nil => cases hp
  | cons q l ih =>
    obtain ⟨t, d, isNull⟩ := q
    rcases List.mem_cons.mp hp with rfl | hmem
    · simp only [scanArgs, hd]
    · simp only [scanArgs]
      split
      · next v hv => rw [ih hmem]; rfl
      · rfl

/-- Every error produced by a scan over zipped pairs is `InvalidInput`. -/
theorem scanArgs_error_eq (l : List (PgType × (Datum × Bool))) (e : PgxsError)
    (h : scanArgs l = .error e) : e = PgxsError.invalidInput := by
  induction l with
  | nil => simp [scanArgs] at h
  | cons q l ih =>
    obtain ⟨t, d, isNull⟩ := q
    simp only [scanArgs] at h
    split at h
    · next v hv =>
      cases hsc : scanArgs l with
      | error e' =>
        rw [hsc] at h
        simp only [Except.map] at h
        obtain rfl := Except.error.inj h
        exact ih hsc
      | ok tl => rw [hsc] at h; simp [Except.map] at h
    · exact (Except.error.inj h).symm

/-- Argument scan with a destination count different from the actual argument
count fails with `InvalidInput`. -/
theorem scan_mismatch (fi : FuncInfo) (dests : List PgType)
    (h : dests.length ≠ fi.args.length) :
    fi.Scan dests = .error PgxsError.invalidInput := by
  unfold FuncInfo.Scan
  rw [if_neg h, ite_self]

/-- Argument scan with any undecodable positional argument fails with
`InvalidInput`. -/
theorem scan_undecodable (fi : FuncInfo) (dests : List PgType)
    (p : PgType × (Datum × Bool)) (hp : p ∈ dests.zip fi.args)
    (hd : decodeArg p.1 p.2.1 p.2.2 = none) :
    fi.Scan dests = .error PgxsError.invalidInput := by
  unfold FuncInfo.Scan
  split
  · rfl
  · split
    · exact scanArgs_fails _ p hp hd
    · rfl

/-- A successful argument scan populates exactly one value per requested
destination. -/
theorem scan_ok_length (fi : FuncInfo) (dests : List PgType)
    (vals : List PgValue) (h : fi.Scan dests = .ok vals) :
    vals.length = dests.length := by
  unfold FuncInfo.Scan at h
  by_cases htr : fi.trigger.isSome
  · rw [if_pos htr] at h
    exact absurd h (by simp)
  · rw [if_neg htr] at h
    by_cases hlen : dests.length = fi.args.length
    · rw [if_pos hlen] at h
      rw [scanArgs_length _ vals h, List.length_zip, hlen]
      exact Nat.min_self _
    · rw [if_neg hlen] at h
      exact absurd h (by simp)

/-- Argument scan either fails with `InvalidInput` or populates every
requested destination. -/
theorem scan_all_or_nothing (fi : FuncInfo) (dests : List PgType) :
    fi.Scan dests = .error PgxsError.invalidInput
      ∨ ∃ vals, fi.Scan dests = .ok vals ∧ vals.length = dests.length := by
  cases hsc : fi.Scan dests with
  | error e =>
    left
    have he : e = PgxsError.invalidInput := by
      unfold FuncInfo.Scan at hsc
      by_cases htr : fi.trigger.isSome
      · rw [if_pos htr] at hsc
        exact (Except.error.inj hsc).symm
      · rw [if_neg htr] at hsc
        by_cases hlen : dests.length = fi.args.length
        · rw [if_pos hlen] at hsc
          exact scanArgs_error_eq _ e hsc
        · rw [if_neg hlen] at hsc
          exact (Except.error.inj hsc).symm
    rw [he]
  | ok vals => exact Or.inr ⟨vals, rfl, scan_ok_length fi dests vals hsc⟩

/-- Argument scan of a single non-null `text[]` argument in normal mode
yields the decoded string sequence. -/
theorem scan_single_textArray (fi : FuncInfo) (d : Datum) (xs : List String)
    (ht : fi.trigger = none) (ha : fi.args = [(d, false)])
    (hd : decode PgType.textArray d = some (PgValue.vtextArray xs)) :
    fi.Scan [PgType.textArray] = .ok [PgValue.vtextArray xs] := by
  unfold FuncInfo.Scan
  rw [ht, ha]
  simp only [Option.isSome_none, Bool.false_eq_true, if_false, List.length_cons,
    List.length_nil, if_pos rfl, List.zip_cons_cons, List.zip_nil_right, scanArgs,
    decodeArg, Bool.false_eq_true, if_false, hd]
  rfl

end Pgxs

namespace Example

open Pgxs

/-- Scanning the single `[]string` destination succeeds exactly on a
call-info in normal mode whose one non-null argument decodes as `text[]`. -/
theorem scanStrings_ok (fi : FuncInfo) (d : Datum) (xs : List String)
    (ht : fi.trigger = none) (ha : fi.args = [(d, false)])
    (hd : decode PgType.textArray d = some (PgValue.vtextArray xs)) :
    scanStrings fi = .ok xs := by
  unfold scanStrings
  rw [scan_single_textArray fi d xs ht ha hd]

/-- Scanning the single `[]string` destination fails with `InvalidInput` when
the one argument cannot be decoded. -/
theorem scanStrings_undecodable (fi : FuncInfo) (d : Datum) (b : Bool)
    (ha : fi.args = [(d, b)])
    (hd : decodeArg PgType.textArray d b = none) :
    scanStrings fi = .error PgxsError.invalidInput := by
  unfold scanStrings
  rw [scan_undecodable fi [PgType.textArray] (PgType.textArray, (d, b))
    (by rw [ha]; exact List.mem_singleton.mpr rfl) hd]

/-- JoinStrings on a successful scan returns the encoded concatenation and
logs nothing. -/
theorem joinStrings_ok (fi : FuncInfo) (xs : List String)
    (h : scanStrings fi = .ok xs) :
    JoinStrings fi = (ToDatum (PgValue.vtext (String.join xs)), []) := by
  unfold JoinStrings convFI
  rw [h]

/-- JoinStrings on a failed scan returns the encoded empty string and logs
the error text at error severity. -/
theorem joinStrings_err (fi : FuncInfo) (e : PgxsError)
    (h : scanStrings fi = .error e) :
    JoinStrings fi = (ToDatum (PgValue.vtext ""), [LogError e.message]) := by
  unfold JoinStrings convFI
  rw [h]

end Example

namespace Example

open Pgxs

/-- Claim C1: for every call-info whose single non-null argument decodes to
the text-array of a, b, c, JoinStrings returns the encoded string "abc"; for
one whose argument decodes to the empty array it returns the encoded empty
string; and for one whose argument cannot be decoded it emits exactly one
error-severity log message and returns the encoded empty-string fallback. -/
theorem c1_joinStrings_behavior :
    (∀ (fi : FuncInfo) (d : Datum), fi.trigger = none → fi.args = [(d, false)] →
      decode PgType.textArray d = some (PgValue.vtextArray ["a", "b", "c"]) →
      JoinStrings fi = (ToDatum (PgValue.vtext "abc"), []))
    ∧ (∀ (fi : FuncInfo) (d : Datum), fi.trigger = none → fi.args = [(d, false)] →
      decode PgType.textArray d = some (PgValue.vtextArray []) →
      JoinStrings fi = (ToDatum (PgValue.vtext ""), []))
    ∧ (∀ (fi : FuncInfo) (d : Datum) (b : Bool), fi.args = [(d, b)] →
      decodeArg PgType.textArray d b = none →
      JoinStrings fi = (ToDatum (PgValue.vtext ""),
          [LogError PgxsError.invalidInput.message])
        ∧ (LogError PgxsError.invalidInput.message).sev = Severity.error) := by
  refine ⟨?_, ?_, ?_⟩
  · intro fi d ht ha hd
    rw [joinStrings_ok fi _ (scanStrings_ok fi d _ ht ha hd)]
    decide
  · intro fi d ht ha hd
    rw [joinStrings_ok fi _ (scanStrings_ok fi d _ ht ha hd)]
    decide
  · intro fi d b ha hd
    exact ⟨joinStrings_err fi _ (scanStrings_undecodable fi d b ha hd), rfl⟩

/-- Witness for C1 at concrete call-infos: the abc array, the empty array,
and an undecodable packed-word argument. -/
theorem c1_witness :
    JoinStrings fiABC = (ToDatum (PgValue.vtext "abc"), [])
    ∧ JoinStrings fiEmptyArr = (ToDatum (PgValue.vtext ""), [])
    ∧ JoinStrings fiBad = (ToDatum (PgValue.vtext ""),
        [LogError PgxsError.invalidInput.message]) :=
  ⟨c1_joinStrings_behavior.1 fiABC (encode (PgValue.vtextArray ["a", "b", "c"]))
      rfl rfl (by decide),
   c1_joinStrings_behavior.2.1 fiEmptyArr (encode (PgValue.vtextArray []))
      rfl rfl (by decide),
   (c1_joinStrings_behavior.2.2 fiBad (Datum.word 5) false rfl (by decide)).1⟩

/-- Claim C2: Hello, on every call-info in any mode (a nil pointer included),
returns the encoded "no value" result and emits exactly the one informational
notice-severity log entry, accessing no argument — its whole output is the
same for every input, so it has no error path. -/
theorem c2_hello_behavior : ∀ p : Option FuncInfo,
    Hello p = (Datum.word 0, [⟨Severity.notice, "hello"⟩])
    ∧ (Hello p).1 = encode PgValue.vnull
    ∧ (Hello p).2 = [noticePrintln "" "hello"]
    ∧ ∀ q, Hello p = Hello q :=
  fun _ => ⟨rfl, rfl, rfl, fun _ => rfl⟩

/-- Claim C3: argument scan fails with InvalidInput whenever the destination
count differs from the actual argument count, and whenever any positional
argument is undecodable under the type mapping table; and it populates
either every requested destination (one value per destination) or none (an
InvalidInput error carrying no values). -/
theorem c3_scan_behavior :
    (∀ (fi : FuncInfo) (dests : List PgType), dests.length ≠ fi.args.length →
      fi.Scan dests = .error PgxsError.invalidInput)
    ∧ (∀ (fi : FuncInfo) (dests : List PgType) (p : PgType × (Datum × Bool)),
      p ∈ dests.zip fi.args → decodeArg p.1 p.2.1 p.2.2 = none →
      fi.Scan dests = .error PgxsError.invalidInput)
    ∧ (∀ (fi : FuncInfo) (dests : List PgType),
      fi.Scan dests = .error PgxsError.invalidInput
        ∨ ∃ vals, fi.Scan dests = .ok vals ∧ vals.length = dests.length) :=
  ⟨scan_mismatch, scan_undecodable, scan_all_or_nothing⟩

/-- Witness for C3 at concrete call-infos: a count mismatch and an
undecodable argument. -/
theorem c3_witness :
    FuncInfo.Scan fiNoArgs [PgType.textArray] = .error PgxsError.invalidInput
    ∧ FuncInfo.Scan fiBad [PgType.textArray] = .error PgxsError.invalidInput :=
  ⟨c3_scan_behavior.1 fiNoArgs [PgType.textArray] (by decide),
   c3_scan_behavior.2.1 fiBad [PgType.textArray]
     (PgType.textArray, (Datum.word 5, false)) (by decide) (by decide)⟩

/-- Claim C4: trigger-data access on a call-info in normal (non-trigger)
mode fails with InvalidState; on a call-info constructed in trigger mode it
returns exactly the trigger context that was supplied. -/
theorem c4_triggerData_access :
    (∀ fi : FuncInfo, fi.CalledAsTrigger = false →
      fi.TriggerData = .error PgxsError.invalidState)
    ∧ (∀ (fi : FuncInfo) (tc : TriggerContext), fi.trigger = some tc →
      fi.TriggerData = .ok tc) := by
  constructor
  · intro fi h
    unfold FuncInfo.CalledAsTrigger at h
    unfold FuncInfo.TriggerData
    cases htr : fi.trigger with
    | none => rfl
    | some tc =>
      rw [htr] at h
      simp at h
  · intro fi tc h
    unfold FuncInfo.TriggerData
    rw [h]

/-- Witness for C4 at concrete call-infos: one in normal mode and one in
trigger mode. -/
theorem c4_witness :
    FuncInfo.TriggerData fiNoArgs = .error PgxsError.invalidState
    ∧ FuncInfo.TriggerData fiTrig = .ok tcSample :=
  ⟨c4_triggerData_access.1 fiNoArgs rfl,
   c4_triggerData_access.2 fiTrig tcSample rfl⟩

/-- Claim C5: round-trip laws of the type mapping table — decoding the
encoding of any supported native value (the null/absent case and the empty
collection included) at its own host SQL type returns that value, and every
well-formed encoded value of a supported type re-encodes to exactly
itself. -/
theorem c5_roundtrip :
    (∀ v : PgValue, decode (typeOf v) (encode v) = some v)
    ∧ (∀ (t : PgType) (d : Datum) (v : PgValue), decode t d = some v →
      encode v = d) :=
  ⟨decode_encode, fun t d v h => (encode_decode t d v h).1⟩

/-- Witness for C5: the null value round-trips, and the well-formed encoded
empty text-array re-encodes to itself. -/
theorem c5_witness :
    decode (typeOf PgValue.vnull) (encode PgValue.vnull) = some PgValue.vnull
    ∧ encode (PgValue.vtextArray []) = Datum.bytes [0] :=
  ⟨c5_roundtrip.1 PgValue.vnull,
   c5_roundtrip.2 PgType.textArray (Datum.bytes [0]) (PgValue.vtextArray [])
     (by decide)⟩

/-- Claim C6 fails on the shipped sources: the SQL installation script as
given in the README binds the symbol HelloWorld, which the library does not
export, while the library exports Hello, which the script does not declare;
only JoinStrings appears on both sides, so the two symbol sets are not
equal and neither equals the pair Hello, JoinStrings on both sides. -/
theorem c6_symbol_sets_differ :
    sqlScriptSymbols ≠ exportedSymbols
    ∧ ("HelloWorld" ∈ sqlScriptSymbols ∧ "HelloWorld" ∉ exportedSymbols)
    ∧ ("Hello" ∈ exportedSymbols ∧ "Hello" ∉ sqlScriptSymbols)
    ∧ ("JoinStrings" ∈ sqlScriptSymbols ∧ "JoinStrings" ∈ exportedSymbols) := by
  exact ⟨by decide, by decide, by decide, by decide⟩

/-- Claim C9: Hello returns the constant datum 0 independently of its input —
the same value for any two call-info pointers, a nil pointer (modelled as
`none`, never dereferenced) included. -/
theorem c9_hello_constant : ∀ p1 p2 : Option FuncInfo,
    (Hello p1).1 = Datum.word 0 ∧ Hello p1 = Hello p2 :=
  fun _ _ => ⟨rfl, rfl⟩

/-- Claim C10: JoinStrings returns an encoded text value on every execution
path, never the "no value"/null datum; and its decode-failure fallback
return equals its success return on an empty input array — both are the
encoding of the empty string — so the returned datum alone cannot
distinguish a decode failure from a successful call on an empty array. -/
theorem c10_joinStrings_fallback :
    (∀ fi : FuncInfo, ∃ s : String,
      (JoinStrings fi).1 = ToDatum (PgValue.vtext s))
    ∧ (∀ fi : FuncInfo, (JoinStrings fi).1 ≠ encode PgValue.vnull)
    ∧ (∀ (fi fi' : FuncInfo) (e : PgxsError), scanStrings fi = .error e →
      scanStrings fi' = .ok [] →
      (JoinStrings fi).1 = (JoinStrings fi').1
        ∧ (JoinStrings fi).1 = ToDatum (PgValue.vtext "")) := by
  have hval : ∀ fi : FuncInfo, ∃ s : String,
      (JoinStrings fi).1 = ToDatum (PgValue.vtext s) := by
    intro fi
    cases hsc : scanStrings fi with
    | error e => exact ⟨"", by rw [joinStrings_err fi e hsc]⟩
    | ok xs => exact ⟨String.join xs, by rw [joinStrings_ok fi xs hsc]⟩
  refine ⟨hval, ?_, ?_⟩
  · intro fi
    obtain ⟨s, hs⟩ := hval fi
    rw [hs]
    simp [ToDatum, encode]
  · intro fi fi' e he hok
    rw [joinStrings_err fi e he, joinStrings_ok fi' [] hok]
    exact ⟨rfl, rfl⟩

/-- Witness for C10: a failing scan (undecodable argument) and a successful
scan of the empty array produce the same returned datum. -/
theorem c10_witness :
    (JoinStrings fiBad).1 = (JoinStrings fiEmptyArr).1 :=
  (c10_joinStrings_fallback.2.2 fiBad fiEmptyArr PgxsError.invalidInput
    (by rfl) (by rfl)).1

end Example
